import Mathlib

/-!
Verification of the CloudMart cost-and-tagging dashboard data pipeline
(`src/App.py`) against its natural-language specification.

The pipeline is shallowly embedded: a `Table` is a header (list of column
names) together with a list of rows, where each row is a list of `Cell`s.
A `Cell` is either missing (pandas `NaN`), a text value, or a numeric value
(the `MonthlyCostUSD` column after coercion).  Every operation of the app
(ingestion and repair, the statistics queries, the completeness scorer,
the filter layer and export) is translated into an executable Lean
function below, and the claims of the spec are settled as theorems about those
functions.
-/

namespace CloudEcon

/-- A table cell: missing (pandas NaN/None), a text value, or a numeric
value (used for the coerced MonthlyCostUSD column). -/
inductive Cell where
  | missing : Cell
  | str : String → Cell
  | num : ℚ → Cell
deriving DecidableEq, Repr

/-- Is the cell missing?  Mirrors pandas `isnull` on a single cell. -/
def Cell.isMissing : Cell → Bool
  | .missing => true
  | _ => false

/-- A data table: column names plus rows of cells (each row is positionally
aligned with the column list). -/
structure Table where
  cols : List String
  rows : List (List Cell)
deriving DecidableEq, Repr

/-- The empty table (`pd.DataFrame()` in the source). -/
def emptyTable : Table := ⟨[], []⟩

/-- Index of the first occurrence of a column name in a header. -/
def colIdx : List String → String → Option ℕ
  | [], _ => none
  | c₀ :: cs, c => if c₀ = c then some 0 else (colIdx cs c).map (· + 1)

/-- The cell of a row at a named column; missing if the column is absent
or the row too short (pandas raises there, but every well-formed row has
exactly one cell per column). -/
def cellAt (cols : List String) (row : List Cell) (c : String) : Cell :=
  match colIdx cols c with
  | some i => row.getD i .missing
  | none => .missing

/-- Split a character sequence at every occurrence of a separator.
For a one-character separator, `splitCharsOn sep` is the character-level
semantics of the Python split method, as used by the app on the comma
delimiter for both the header string and the data column. -/
def splitCharsOn (sep : Char) : List Char → List (List Char)
  | [] => [[]]
  | c :: cs =>
    if c = sep then [] :: splitCharsOn sep cs
    else
      match splitCharsOn sep cs with
      | [] => [[c]]
      | f :: fs => (c :: f) :: fs

/-- Join character fields with a separator: inverse of `splitCharsOn` on
separator-free fields. -/
def joinCharsOn (sep : Char) : List (List Char) → List Char
  | [] => []
  | [f] => f
  | f :: g :: fs => f ++ sep :: joinCharsOn sep (g :: fs)

/-- Split a string on commas into its fields. -/
def splitFields (s : String) : List String :=
  (splitCharsOn ',' s.data).map String.mk

/-- Join fields with commas (the delimiter used both by the repair step
and by `to_csv`). -/
def joinFields (fs : List String) : String :=
  String.mk (joinCharsOn ',' (fs.map String.data))

/-- ASCII whitespace recognised by the header-cleaning `strip()`. -/
def isWS (c : Char) : Bool :=
  c = ' ' || c = '\t' || c = '\n' || c = '\r'

/-- Strip whitespace from both ends of a character list. -/
def trimChars (cs : List Char) : List Char :=
  ((cs.dropWhile isWS).reverse.dropWhile isWS).reverse

/-- Clean one header name, as the source does with strip followed by
replacing the byte-order mark with the empty string: strip surrounding
whitespace, then delete every byte-order-mark character. -/
def cleanName (s : String) : String :=
  String.mk ((trimChars s.data).filter (fun c => c ≠ '\uFEFF'))

/-- Repaired header: split the raw header line on commas and clean each
resulting column name (`cleaned_header_list` in the source). -/
def splitHeader (h : String) : List String :=
  (splitFields h).map cleanName

/-- Blank-as-missing normalisation of one raw field: the source replaces
every field matching the regex `^\s*$` with NaN, so every empty or
whitespace-only field becomes a missing cell; any other field stays text. -/
def normCell (s : String) : Cell :=
  if trimChars s.data = [] then .missing else .str s

/-- Numeric value of a digit character. -/
def digitVal (c : Char) : ℕ := c.toNat - 48

/-- Value of a digit string read in base 10. -/
def digitsVal (cs : List Char) : ℕ :=
  cs.foldl (fun n c => 10 * n + digitVal c) 0

/-- Unsigned decimal body: integer digits with an optional fractional
part separated by one dot; at least one digit overall. -/
def parseUnsigned (cs : List Char) : Option ℚ :=
  match splitCharsOn '.' cs with
  | [a] =>
    if !a.isEmpty && a.all Char.isDigit then some ((digitsVal a : ℕ) : ℚ) else none
  | [a, b] =>
    if (!a.isEmpty || !b.isEmpty) && a.all Char.isDigit && b.all Char.isDigit then
      some ((digitsVal a : ℚ) + (digitsVal b : ℚ) / (10 : ℚ) ^ b.length)
    else none
  | _ => none

/-- Decimal-number parser modelling `pd.to_numeric` on a text cell:
optional sign, integer digits, optional fractional digits; surrounding
whitespace is tolerated; anything else fails. -/
def parseDecimal (s : String) : Option ℚ :=
  match trimChars s.data with
  | '-' :: rest => (parseUnsigned rest).map (fun q => -q)
  | '+' :: rest => parseUnsigned rest
  | body => parseUnsigned body

/-- Coerce one cell of the cost column (`pd.to_numeric`): missing stays
missing, text must parse as a decimal number, numbers pass through. -/
def coerceCell : Cell → Option Cell
  | .missing => some .missing
  | .str s => (parseDecimal s).map .num
  | .num q => some (.num q)

/-- Coerce the cell at index `i` of a row, failing if it is non-numeric
text. -/
def coerceRowAt (i : ℕ) (r : List Cell) : Option (List Cell) :=
  match coerceCell (r.getD i .missing) with
  | some c => some (r.set i c)
  | none => none

/-- Raw cells of one data line: split on commas, blank fields missing. -/
def rawRow (l : String) : List Cell :=
  (splitFields l).map normCell

/-- Pad a row with missing cells to width `w` (pandas `str.split` with
`expand=True` pads short rows with `None`). -/
def padTo (w : ℕ) (cs : List Cell) : List Cell :=
  cs ++ List.replicate (w - cs.length) .missing

/-- Ingestion and repair (`try` block of the source): the input is the
single-column view of the file — first line the raw header, remaining
lines the raw records.  Splits and cleans the header, splits every data
line on commas (padding to the widest row), normalises blank fields to
missing, and coerces the `MonthlyCostUSD` column to numbers.  Any
failure — no data, a column-count mismatch when the repaired header is
assigned, an absent `MonthlyCostUSD` column (`KeyError`), or a
non-numeric cost value — fails the whole load with an error message. -/
def loadTable (lines : List String) : Except String Table :=
  match lines with
  | [] => .error "empty file"
  | header :: dataLines =>
    if dataLines.isEmpty then .error "no data rows" else
    let cols := splitHeader header
    let w := (dataLines.map (fun l => (splitFields l).length)).foldr max 0
    if w ≠ cols.length then .error "column count mismatch" else
    match colIdx cols "MonthlyCostUSD" with
    | none => .error "missing MonthlyCostUSD column"
    | some i =>
      match (dataLines.map (fun l => padTo w (rawRow l))).mapM (coerceRowAt i) with
      | some rows => .ok ⟨cols, rows⟩
      | none => .error "non-numeric MonthlyCostUSD value"

/-- The table the app continues with: the loaded table on success, the
empty table on failure (`df = pd.DataFrame()` in the `except` branch). -/
def appTable (lines : List String) : Table :=
  match loadTable lines with
  | .ok t => t
  | .error _ => emptyTable

/-- The surfaced load error: `st.error(...)` message on failure, nothing
on success. -/
def loadError (lines : List String) : Option String :=
  match loadTable lines with
  | .ok _ => none
  | .error e => some e

/-- The fixed candidate tag fields of the completeness scorer. -/
def tagFieldsAll : List String :=
  ["Department", "Project", "Environment", "Owner", "CostCenter", "CreatedBy"]

/-- The tag fields actually present in a header (`tag_fields` in the
source: the fixed list filtered by membership in `df.columns`). -/
def tagFields (cols : List String) : List String :=
  tagFieldsAll.filter (fun c => decide (c ∈ cols))

/-- Numeric value of a cell for summation; pandas `sum` skips missing
values, so they (and stray text) contribute zero. -/
def cellToRat : Cell → ℚ
  | .num q => q
  | _ => 0

/-- The `MonthlyCostUSD` contribution of one row. -/
def rowCost (cols : List String) (r : List Cell) : ℚ :=
  cellToRat (cellAt cols r "MonthlyCostUSD")

/-- Pandas `df["MonthlyCostUSD"].sum()`: total cost of a table. -/
def totalCost (t : Table) : ℚ :=
  (t.rows.map (rowCost t.cols)).sum

/-- Grouping key of a row for `df.groupby("Tagged")`: its `Tagged` cell,
or no key when that cell is missing (pandas drops missing keys from the
default groupby). -/
def taggedKey (cols : List String) (r : List Cell) : Option Cell :=
  match cellAt cols r "Tagged" with
  | .missing => none
  | v => some v

/-- Pandas `df.groupby("Tagged")["MonthlyCostUSD"].sum()`: for every distinct
non-missing `Tagged` value, the summed cost of the rows carrying it. -/
def costByTagStatus (t : Table) : List (Cell × ℚ) :=
  ((t.rows.filterMap (taggedKey t.cols)).dedup).map
    (fun k => (k, ((t.rows.filter (fun r => decide (taggedKey t.cols r = some k))).map
      (rowCost t.cols)).sum))

/-- Number of records with `Tagged == "No"`
(`df[df["Tagged"] == "No"].shape[0]`). -/
def countNo (t : Table) : ℕ :=
  (t.rows.filter (fun r => decide (cellAt t.cols r "Tagged" = .str "No"))).length

/-- Untagged-resource percentage (section 1.5 of the source): computed
and shown only when the table is non-empty, the `Tagged` column exists
and the value `"No"` occurs; in every other case nothing is reported,
which the spec reads as zero. -/
def untaggedPercentage (t : Table) : ℚ :=
  if !t.rows.isEmpty
      && decide ("Tagged" ∈ t.cols)
      && t.rows.any (fun r => decide (cellAt t.cols r "Tagged" = .str "No")) then
    ((countNo t : ℚ) / (t.rows.length : ℚ)) * 100
  else 0

/-- Summed cost of the records with `Tagged == "No"`
(`df[df["Tagged"] == "No"]["MonthlyCostUSD"].sum()`). -/
def untaggedCost (t : Table) : ℚ :=
  ((t.rows.filter (fun r => decide (cellAt t.cols r "Tagged" = .str "No"))).map
    (rowCost t.cols)).sum

/-- Per-record completeness score
(`df[tag_fields].notnull().sum(axis=1)`): over the tag fields present in
the header, one point per non-missing cell. -/
def completenessScore (cols : List String) (row : List Cell) : ℕ :=
  ((tagFields cols).map
    (fun c => if (cellAt cols row c).isMissing then 0 else 1)).sum

/-- Write value `v` into the column named `c`: pandas column assignment
replaces an existing column in place or appends a new one at the end of
the header. -/
def setCellNamed (cols : List String) (r : List Cell) (c : String) (v : Cell) :
    List Cell :=
  match colIdx cols c with
  | some i => r.set i v
  | none => r ++ [v]

/-- Source line `df["CompletenessScore"] = df[tag_fields].notnull().sum(axis=1)`:
the table after the completeness-score computation, which stores the
score as a new (or overwritten) `CompletenessScore` column.  The source
runs it only when the table is non-empty and at least one tag field is
present. -/
def addCompletenessScore (t : Table) : Table :=
  if !t.rows.isEmpty && !(tagFields t.cols).isEmpty then
    { cols := if decide ("CompletenessScore" ∈ t.cols) then t.cols
              else t.cols ++ ["CompletenessScore"],
      rows := t.rows.map (fun r =>
        setCellNamed t.cols r "CompletenessScore"
          (.num (completenessScore t.cols r))) }
  else t

/-- Does the row miss at least one of the present tag fields
(`df[tag_fields].isnull().any(axis=1)`)? -/
def incompleteMask (cols : List String) (r : List Cell) : Bool :=
  (tagFields cols).any (fun c => (cellAt cols r c).isMissing)

/-- Display substitution of fillna with the empty string: missing becomes
the empty string, everything else is untouched. -/
def fillEmptyCell : Cell → Cell
  | .missing => .str ""
  | c => c

/-- The record-selection step of the incomplete-resource query: the
subset of records missing at least one present tag field
(`df[incomplete_mask]`), before any display substitution. -/
def incompleteSelect (t : Table) : Table :=
  ⟨t.cols, t.rows.filter (incompleteMask t.cols)⟩

/-- The `incomplete_df` table of the source — the incomplete records,
obtained by the mask filter and fillna — with every missing cell rendered
as an empty string. -/
def incompleteResources (t : Table) : Table :=
  ⟨t.cols, (t.rows.filter (incompleteMask t.cols)).map (fun r => r.map fillEmptyCell)⟩

/-- Pandas `filtered[col].isin(selection)` on one cell: a text value passes iff
it is one of the selected values; a missing (or numeric) cell never
matches a selected string. -/
def cellIn (c : Cell) (allowed : List String) : Bool :=
  match c with
  | .str v => allowed.contains v
  | _ => false

/-- The selectable options of one filter widget
(`df[col].dropna().unique()`): the distinct non-missing values of the
column. -/
def filterOptions (t : Table) (c : String) : List Cell :=
  ((t.rows.filterMap (fun r =>
    match cellAt t.cols r c with
    | .missing => none
    | v => some v))).dedup

/-- The Task-4 filter layer: apply the Service, then Region, then
Department selections; each is applied only when its column exists and
its selection is non-empty. -/
def applyFilters (t : Table) (sSel rSel dSel : List String) : Table :=
  let r1 := if decide ("Service" ∈ t.cols) && !sSel.isEmpty then
      t.rows.filter (fun row => cellIn (cellAt t.cols row "Service") sSel)
    else t.rows
  let r2 := if decide ("Region" ∈ t.cols) && !rSel.isEmpty then
      r1.filter (fun row => cellIn (cellAt t.cols row "Region") rSel)
    else r1
  let r3 := if decide ("Department" ∈ t.cols) && !dSel.isEmpty then
      r2.filter (fun row => cellIn (cellAt t.cols row "Department") dSel)
    else r2
  ⟨t.cols, r3⟩

/-- Pandas `df.isnull().sum()`: per-column missing-value counts, in header
order. -/
def missingPerColumn (t : Table) : List (String × ℕ) :=
  t.cols.map (fun c =>
    (c, (t.rows.filter (fun r => (cellAt t.cols r c).isMissing)).length))

/-- Pandas `df["Tagged"].value_counts(dropna=False)`: occurrences per distinct
`Tagged` value, the missing bucket included. -/
def tagCounts (t : Table) : List (Cell × ℕ) :=
  ((t.rows.map (fun r => cellAt t.cols r "Tagged")).dedup).map
    (fun v => (v, (t.rows.filter (fun r => decide (cellAt t.cols r "Tagged" = v))).length))

/-- Decimal rendering of a rational: sign, integer digits, and — when
the denominator divides a power of ten, which holds for every value the
float-backed cost column can carry (`parseDecimal` only produces such
denominators, and binary floats are decimal-representable) — the exact
fractional digits, using the smallest such power.  A rational with no
finite decimal form (never produced by the app) falls back to a
numerator-slash-denominator rendering. -/
def ratRender (q : ℚ) : String :=
  let sign := if q < 0 then "-" else ""
  match (List.range (q.den + 1)).find? (fun k => decide (q.den ∣ 10 ^ k)) with
  | some 0 => sign ++ toString q.num.natAbs
  | some (k + 1) =>
    let scaled := q.num.natAbs * (10 ^ (k + 1) / q.den)
    sign ++ toString (scaled / 10 ^ (k + 1)) ++ "."
      ++ (toString (scaled % 10 ^ (k + 1) + 10 ^ (k + 1))).drop 1
  | none => sign ++ toString q.num.natAbs ++ "/" ++ toString q.den

/-- Text of one cell in a `to_csv` export: missing becomes an empty
field, text is written as is, numbers in decimal notation. -/
def renderCell : Cell → String
  | .missing => ""
  | .str s => s
  | .num q => ratRender q

/-- Does a field require quoting under the QUOTE_MINIMAL rule of
`to_csv`: it contains the delimiter, the quote character, or a line
break. -/
def needsQuoteChar (c : Char) : Bool :=
  c = ',' || c = '"' || c = '\n' || c = '\r'

/-- Double every quote character of a field body, as `to_csv` does
inside a quoted field. -/
def escapeChars : List Char → List Char
  | [] => []
  | c :: cs => if c = '"' then '"' :: '"' :: escapeChars cs else c :: escapeChars cs

/-- QUOTE_MINIMAL quoting of one field: a field containing a delimiter,
a quote or a line break is wrapped in quotes with its inner quotes
doubled; any other field is written raw. -/
def quoteChars (cs : List Char) : List Char :=
  if cs.any needsQuoteChar then '"' :: (escapeChars cs ++ ['"']) else cs

/-- String-level QUOTE_MINIMAL quoting of one field. -/
def quoteField (s : String) : String :=
  String.mk (quoteChars s.data)

/-- Export `to_csv(index=False)` as a list of records: the header joined
with commas, then one comma-joined line per record, every field quoted
per QUOTE_MINIMAL when needed. -/
def serialize (t : Table) : List String :=
  joinFields (t.cols.map quoteField)
    :: t.rows.map (fun r => joinFields ((r.map renderCell).map quoteField))

/-- Helper of the record parser: push a character onto the field
currently being built. -/
def consHead (c : Char) : List (List Char) → List (List Char)
  | [] => [[c]]
  | f :: fs => (c :: f) :: fs

/-- Parser state of the record splitter: outside quotes, inside a quoted
field, or just after a quote character inside a quoted field (which is
either the closing quote or the first half of a doubled quote). -/
inductive CsvMode where
  | plain : CsvMode
  | quoted : CsvMode
  | afterQ : CsvMode

/-- Split one delimited record into its fields, honouring quoting: a
comma outside quotes separates fields, a quote opens a quoted field in
which a doubled quote stands for one quote character and a single quote
closes the field.  (Behaviour on malformed records — which `serialize`
never emits — is arbitrary but total.) -/
def csvSplit : CsvMode → List Char → List (List Char)
  | _, [] => [[]]
  | .plain, c :: cs =>
    if c = ',' then [] :: csvSplit .plain cs
    else if c = '"' then csvSplit .quoted cs
    else consHead c (csvSplit .plain cs)
  | .quoted, c :: cs =>
    if c = '"' then csvSplit .afterQ cs
    else consHead c (csvSplit .quoted cs)
  | .afterQ, c :: cs =>
    if c = '"' then consHead '"' (csvSplit .quoted cs)
    else if c = ',' then [] :: csvSplit .plain cs
    else consHead c (csvSplit .plain cs)

/-- Fields of one exported record: quote-aware comma splitting. -/
def parseCSVFields (s : String) : List String :=
  (csvSplit .plain s.data).map String.mk

/-- Modelled from the spec: the "conformant delimited parser" of the
round-trip property is not part of this repository (section 4.5 only
requires a parser of the exported format that needs no single-column
repair).  It takes the header from the first record, splits every record
on the comma delimiter outside quotes, unquotes quoted fields (a doubled
quote becomes one), and yields each field as a text cell, so a missing
cell exported as an empty field comes back as the empty string. -/
def conformantParse (lines : List String) : Table :=
  match lines with
  | [] => emptyTable
  | h :: rest =>
    ⟨parseCSVFields h, rest.map (fun l => (parseCSVFields l).map Cell.str)⟩

/-- One full page render: the load outcome plus every guarded section
payload, `none` marking a section the app skips. -/
structure AppView where
  loadMsg : Option String
  table : Table
  exploration : Option (List (String × ℕ))
  untaggedBox : Option ℚ
  costByTag : Option (List (Cell × ℚ))
  untaggedCostBox : Option ℚ
  compliance : Option Table
  charts : Option (List (Cell × ℕ))
  editor : Option (List String)

/-- The page pipeline of the source, one synchronous pass: load (falling
back to the empty table), run every guarded section.  Task 3 stores the
completeness column back into the table, and Tasks 4 and 5 see that
updated table. -/
def renderApp (lines sSel rSel dSel : List String) : AppView :=
  let t := appTable lines
  let t3 := addCompletenessScore t
  let f := applyFilters t3 sSel rSel dSel
  { loadMsg := loadError lines
    table := t
    exploration := if t.rows.isEmpty then none else some (missingPerColumn t)
    untaggedBox :=
      if !t.rows.isEmpty
          && decide ("Tagged" ∈ t.cols)
          && t.rows.any (fun r => decide (cellAt t.cols r "Tagged" = .str "No")) then
        some (untaggedPercentage t)
      else none
    costByTag :=
      if !t.rows.isEmpty && decide ("Tagged" ∈ t.cols)
          && decide ("MonthlyCostUSD" ∈ t.cols) then
        some (costByTagStatus t)
      else none
    untaggedCostBox :=
      if !t.rows.isEmpty && decide ("Tagged" ∈ t.cols)
          && decide ("MonthlyCostUSD" ∈ t.cols) && decide (0 < totalCost t) then
        some (untaggedCost t / totalCost t * 100)
      else none
    compliance :=
      if !t.rows.isEmpty && !(tagFields t.cols).isEmpty then
        some (incompleteResources t3)
      else none
    charts :=
      if !f.rows.isEmpty && decide ("Tagged" ∈ t3.cols) then
        some (tagCounts f)
      else none
    editor := if t.rows.isEmpty then none else some (serialize t3) }

/-! ### Helper lemmas -/

theorem sum_map_filter_split {α : Type} (p q : α → Bool) (val : α → ℚ) (l : List α) :
    ((l.filter q).map val).sum
      = ((l.filter (fun a => q a && p a)).map val).sum
        + ((l.filter (fun a => q a && !p a)).map val).sum := by
  induction l with
  | nil => simp
  | cons a l ih =>
    by_cases hq : q a <;> by_cases hp : p a <;>
      simp [List.filter_cons, hq, hp, ih] <;> ring

theorem sum_groups {α β : Type} [DecidableEq β] (key : α → Option β) (val : α → ℚ) :
    ∀ ks : List β, ks.Nodup → ∀ l : List α,
      (∀ a ∈ l, ∀ k, key a = some k → k ∈ ks) →
      (ks.map (fun k =>
        ((l.filter (fun a => decide (key a = some k))).map val).sum)).sum
        = ((l.filter (fun a => decide (key a ≠ none))).map val).sum := by
  intro ks
  induction ks with
  | nil =>
    intro _ l h
    have hnil : l.filter (fun a => decide (key a ≠ none)) = [] := by
      rw [List.filter_eq_nil_iff]
      intro a ha
      simp only [decide_eq_true_eq, ne_eq, not_not]
      cases hk : key a with
      | none => rfl
      | some k => exact absurd (h a ha k hk) (List.not_mem_nil k)
    rw [List.map_nil, List.sum_nil, hnil, List.map_nil, List.sum_nil]
  | cons k ks ih =>
    intro hnd l h
    have hk_not : k ∉ ks := (List.nodup_cons.mp hnd).1
    have split := sum_map_filter_split (fun a => decide (key a = some k))
      (fun a => decide (key a ≠ none)) val l
    have hqp : ∀ a ∈ l,
        (decide (key a ≠ none) && decide (key a = some k))
          = decide (key a = some k) := by
      intro a _
      cases hk' : key a <;> simp
    have hterm : ((l.filter (fun a =>
          decide (key a ≠ none) && decide (key a = some k))).map val).sum
        = ((l.filter (fun a => decide (key a = some k))).map val).sum := by
      rw [List.filter_congr hqp]
    have hrest : ∀ k' ∈ ks,
        l.filter (fun a => decide (key a = some k'))
          = (l.filter (fun a => !decide (key a = some k))).filter
              (fun a => decide (key a = some k')) := by
      intro k' hk'
      rw [List.filter_filter]
      apply List.filter_congr
      intro a _
      by_cases hp : key a = some k'
      · have hkk : k' ≠ k := fun heq => hk_not (heq ▸ hk')
        simp [hp, hkk]
      · simp [hp]
    have hmap : (ks.map (fun k' =>
          ((l.filter (fun a => decide (key a = some k'))).map val).sum)).sum
        = (ks.map (fun k' =>
          (((l.filter (fun a => !decide (key a = some k))).filter
            (fun a => decide (key a = some k'))).map val).sum)).sum := by
      congr 1
      exact List.map_congr_left (fun k' hk' => by rw [hrest k' hk'])
    have hih := ih (List.nodup_cons.mp hnd).2
      (l.filter (fun a => !decide (key a = some k)))
      (by
        intro a ha k'' hk''
        have hal : a ∈ l := (List.mem_filter.mp ha).1
        have hneq : ¬(key a = some k) := by
          have := (List.mem_filter.mp ha).2
          simpa using this
        rcases List.mem_cons.mp (h a hal k'' hk'') with heq | hmem
        · exact absurd (heq ▸ hk'') hneq
        · exact hmem)
    have hfinal : (l.filter (fun a => !decide (key a = some k))).filter
        (fun a => decide (key a ≠ none))
        = l.filter (fun a => decide (key a ≠ none) && !decide (key a = some k)) := by
      rw [List.filter_filter]
    calc (List.map (fun k' =>
            ((l.filter (fun a => decide (key a = some k'))).map val).sum) (k :: ks)).sum
        = ((l.filter (fun a => decide (key a = some k))).map val).sum
          + (ks.map (fun k' =>
              ((l.filter (fun a => decide (key a = some k'))).map val).sum)).sum := by
          simp
      _ = ((l.filter (fun a => decide (key a = some k))).map val).sum
          + (((l.filter (fun a => !decide (key a = some k))).filter
              (fun a => decide (key a ≠ none))).map val).sum := by
          rw [hmap, hih]
      _ = ((l.filter (fun a => decide (key a ≠ none))).map val).sum := by
          rw [hfinal, split, hterm]

theorem colIdx_eq_none_iff (cols : List String) (c : String) :
    colIdx cols c = none ↔ c ∉ cols := by
  induction cols with
  | nil => simp [colIdx]
  | cons c₀ cs ih =>
    by_cases h : c₀ = c
    · simp [colIdx, h]
    · simp only [colIdx, if_neg h, Option.map_eq_none', ih, List.mem_cons, not_or]
      constructor
      · intro hnc
        exact ⟨fun heq => h heq.symm, hnc⟩
      · intro hp
        exact hp.2

theorem colIdx_isSome_of_mem {cols : List String} {c : String} (h : c ∈ cols) :
    ∃ i, colIdx cols c = some i := by
  cases hidx : colIdx cols c with
  | none => exact absurd ((colIdx_eq_none_iff cols c).mp hidx) (not_not.mpr h)
  | some i => exact ⟨i, rfl⟩

theorem colIdx_lt_length {cols : List String} {c : String} {i : ℕ}
    (h : colIdx cols c = some i) : i < cols.length := by
  induction cols generalizing i with
  | nil => simp [colIdx] at h
  | cons c₀ cs ih =>
    unfold colIdx at h
    by_cases hc : c₀ = c
    · rw [if_pos hc] at h
      have h0 : i = 0 := (Option.some.inj h).symm
      simp [h0]
    · rw [if_neg hc] at h
      cases hj : colIdx cs c with
      | none => rw [hj] at h; simp at h
      | some j =>
        rw [hj] at h
        simp only [Option.map_some'] at h
        have hlt := ih hj
        have hij : j + 1 = i := Option.some.inj h
        simp only [List.length_cons]
        omega

theorem colIdx_append_left {cols : List String} {c : String} (l : List String)
    (h : c ∈ cols) : colIdx (cols ++ l) c = colIdx cols c := by
  induction cols with
  | nil => simp at h
  | cons c₀ cs ih =>
    by_cases hc : c₀ = c
    · simp [colIdx, hc]
    · have hmem : c ∈ cs := by
        cases List.mem_cons.mp h with
        | inl heq => exact absurd heq.symm hc
        | inr hm => exact hm
      simp [colIdx, hc, ih hmem]

theorem cellAt_nil (cols : List String) (c : String) :
    cellAt cols [] c = .missing := by
  unfold cellAt
  cases colIdx cols c <;> simp

theorem cellAt_append_of_idx {cols : List String} {c : String} {i : ℕ}
    (l : List String) (r : List Cell) (v : Cell)
    (hc : c ∈ cols) (hi : colIdx cols c = some i) (hr : cols.length ≤ r.length) :
    cellAt (cols ++ l) (r ++ [v]) c = cellAt cols r c := by
  unfold cellAt
  rw [colIdx_append_left l hc, hi]
  exact List.getD_append _ _ _ _ (lt_of_lt_of_le (colIdx_lt_length hi) hr)

theorem sum_if_eq_length_filter {α : Type} (p : α → Bool) (l : List α) :
    (l.map (fun a => if p a then (0 : ℕ) else 1)).sum
      = (l.filter (fun a => !p a)).length := by
  induction l with
  | nil => rfl
  | cons a l ih =>
    by_cases hp : p a <;> simp [List.filter_cons, hp, ih, Nat.add_comm]

theorem mem_ite_filter {α : Type} (cond : Bool) (p : α → Bool) (l : List α) (a : α) :
    a ∈ (if cond then l.filter p else l) ↔ a ∈ l ∧ (cond = true → p a = true) := by
  cases cond <;> simp [List.mem_filter]

theorem length_ite_filter {α : Type} (cond : Bool) (p : α → Bool) (l : List α) :
    (if cond then l.filter p else l).length ≤ l.length := by
  cases cond <;> simp [List.length_filter_le]

theorem applyFilters_mem (t : Table) (s r d : List String) (row : List Cell) :
    row ∈ (applyFilters t s r d).rows ↔
      ((row ∈ t.rows
        ∧ ((decide ("Service" ∈ t.cols) && !s.isEmpty) = true →
            cellIn (cellAt t.cols row "Service") s = true))
        ∧ ((decide ("Region" ∈ t.cols) && !r.isEmpty) = true →
            cellIn (cellAt t.cols row "Region") r = true))
        ∧ ((decide ("Department" ∈ t.cols) && !d.isEmpty) = true →
            cellIn (cellAt t.cols row "Department") d = true) := by
  simp only [applyFilters]
  rw [mem_ite_filter, mem_ite_filter, mem_ite_filter]

theorem string_mk_data (s : String) : String.mk s.data = s := rfl

theorem csvSplit_plain_comma_step (cs : List Char) :
    csvSplit .plain (',' :: cs) = [] :: csvSplit .plain cs := rfl

theorem csvSplit_plain_quote (cs : List Char) :
    csvSplit .plain ('"' :: cs) = csvSplit .quoted cs := rfl

theorem csvSplit_plain_other (c : Char) (cs : List Char)
    (h1 : c ≠ ',') (h2 : c ≠ '"') :
    csvSplit .plain (c :: cs) = consHead c (csvSplit .plain cs) := by
  simp [csvSplit, h1, h2]

theorem csvSplit_quoted_quote (cs : List Char) :
    csvSplit .quoted ('"' :: cs) = csvSplit .afterQ cs := rfl

theorem csvSplit_quoted_other (c : Char) (cs : List Char) (h : c ≠ '"') :
    csvSplit .quoted (c :: cs) = consHead c (csvSplit .quoted cs) := by
  simp [csvSplit, h]

theorem csvSplit_afterQ_quote (cs : List Char) :
    csvSplit .afterQ ('"' :: cs) = consHead '"' (csvSplit .quoted cs) := rfl

theorem csvSplit_afterQ_comma (cs : List Char) :
    csvSplit .afterQ (',' :: cs) = [] :: csvSplit .plain cs := rfl

theorem plain_char_facts {c : Char} (h : needsQuoteChar c = false) :
    c ≠ ',' ∧ c ≠ '"' := by
  unfold needsQuoteChar at h
  simp at h
  exact ⟨h.1.1.1, h.1.1.2⟩

theorem csvSplit_unquoted :
    ∀ cs : List Char, cs.any needsQuoteChar = false →
      csvSplit .plain cs = [cs] := by
  intro cs
  induction cs with
  | nil => intro _; rfl
  | cons c cs ih =>
    intro h
    rw [List.any_cons, Bool.or_eq_false_iff] at h
    obtain ⟨h1, h2⟩ := plain_char_facts h.1
    rw [csvSplit_plain_other c cs h1 h2, ih h.2]
    rfl

theorem csvSplit_unquoted_comma :
    ∀ cs rest : List Char, cs.any needsQuoteChar = false →
      csvSplit .plain (cs ++ ',' :: rest) = cs :: csvSplit .plain rest := by
  intro cs
  induction cs with
  | nil => intro rest _; exact csvSplit_plain_comma_step rest
  | cons c cs ih =>
    intro rest h
    rw [List.any_cons, Bool.or_eq_false_iff] at h
    obtain ⟨h1, h2⟩ := plain_char_facts h.1
    show csvSplit .plain (c :: (cs ++ ',' :: rest)) = (c :: cs) :: csvSplit .plain rest
    rw [csvSplit_plain_other c _ h1 h2, ih rest h.2]
    rfl

theorem csvSplit_quoted_end :
    ∀ f : List Char, csvSplit .quoted (escapeChars f ++ ['"']) = [f] := by
  intro f
  induction f with
  | nil => rfl
  | cons c f ih =>
    by_cases hc : c = '"'
    · subst hc
      rw [show escapeChars ('"' :: f) = '"' :: '"' :: escapeChars f from by
        simp [escapeChars]]
      show csvSplit .quoted ('"' :: '"' :: (escapeChars f ++ ['"'])) = ['"' :: f]
      rw [csvSplit_quoted_quote, csvSplit_afterQ_quote, ih]
      rfl
    · rw [show escapeChars (c :: f) = c :: escapeChars f from by
        simp [escapeChars, hc]]
      show csvSplit .quoted (c :: (escapeChars f ++ ['"'])) = [c :: f]
      rw [csvSplit_quoted_other c _ hc, ih]
      rfl

theorem csvSplit_quoted_comma :
    ∀ f rest : List Char,
      csvSplit .quoted (escapeChars f ++ '"' :: ',' :: rest)
        = f :: csvSplit .plain rest := by
  intro f
  induction f with
  | nil =>
    intro rest
    show csvSplit .quoted ('"' :: ',' :: rest) = [] :: csvSplit .plain rest
    rw [csvSplit_quoted_quote, csvSplit_afterQ_comma]
  | cons c f ih =>
    intro rest
    by_cases hc : c = '"'
    · subst hc
      rw [show escapeChars ('"' :: f) = '"' :: '"' :: escapeChars f from by
        simp [escapeChars]]
      show csvSplit .quoted ('"' :: '"' :: (escapeChars f ++ '"' :: ',' :: rest))
        = ('"' :: f) :: csvSplit .plain rest
      rw [csvSplit_quoted_quote, csvSplit_afterQ_quote, ih rest]
      rfl
    · rw [show escapeChars (c :: f) = c :: escapeChars f from by
        simp [escapeChars, hc]]
      show csvSplit .quoted (c :: (escapeChars f ++ '"' :: ',' :: rest))
        = (c :: f) :: csvSplit .plain rest
      rw [csvSplit_quoted_other c _ hc, ih rest]
      rfl

theorem csvSplit_quoteChars (f : List Char) :
    csvSplit .plain (quoteChars f) = [f] := by
  unfold quoteChars
  cases h : f.any needsQuoteChar with
  | true =>
    show csvSplit .plain ('"' :: (escapeChars f ++ ['"'])) = [f]
    rw [csvSplit_plain_quote]
    exact csvSplit_quoted_end f
  | false =>
    show csvSplit .plain f = [f]
    exact csvSplit_unquoted f h

theorem csvSplit_quoteChars_comma (f rest : List Char) :
    csvSplit .plain (quoteChars f ++ ',' :: rest) = f :: csvSplit .plain rest := by
  unfold quoteChars
  cases h : f.any needsQuoteChar with
  | true =>
    show csvSplit .plain ('"' :: ((escapeChars f ++ ['"']) ++ ',' :: rest))
      = f :: csvSplit .plain rest
    rw [csvSplit_plain_quote, List.append_assoc]
    show csvSplit .quoted (escapeChars f ++ '"' :: ',' :: rest)
      = f :: csvSplit .plain rest
    exact csvSplit_quoted_comma f rest
  | false =>
    show csvSplit .plain (f ++ ',' :: rest) = f :: csvSplit .plain rest
    exact csvSplit_unquoted_comma f rest h

theorem csvSplit_joinQuoted :
    ∀ fs : List (List Char), fs ≠ [] →
      csvSplit .plain (joinCharsOn ',' (fs.map quoteChars)) = fs := by
  intro fs
  induction fs with
  | nil => intro h; exact absurd rfl h
  | cons f fs ih =>
    intro _
    cases fs with
    | nil => exact csvSplit_quoteChars f
    | cons g fs' =>
      show csvSplit .plain
        (joinCharsOn ',' (quoteChars f :: quoteChars g :: fs'.map quoteChars))
        = f :: g :: fs'
      rw [show joinCharsOn ',' (quoteChars f :: quoteChars g :: fs'.map quoteChars)
          = quoteChars f ++ ',' :: joinCharsOn ','
              (quoteChars g :: fs'.map quoteChars) from rfl]
      rw [csvSplit_quoteChars_comma, ← List.map_cons]
      rw [ih (List.cons_ne_nil g fs')]

theorem parse_serialize_fields (fs : List String) (hne : fs ≠ []) :
    parseCSVFields (joinFields (fs.map quoteField)) = fs := by
  unfold parseCSVFields joinFields
  have hdata : (String.mk (joinCharsOn ',' ((fs.map quoteField).map String.data))).data
      = joinCharsOn ',' ((fs.map quoteField).map String.data) := rfl
  rw [hdata]
  have hmap : (fs.map quoteField).map String.data
      = (fs.map String.data).map quoteChars := by
    rw [List.map_map, List.map_map]
    exact List.map_congr_left (fun s _ => rfl)
  rw [hmap]
  rw [csvSplit_joinQuoted (fs.map String.data) (by simpa using hne)]
  rw [List.map_map]
  have : (String.mk ∘ String.data) = id := by
    funext g
    exact string_mk_data g
  rw [this, List.map_id]

theorem foldr_max_const (L : ℕ) :
    ∀ xs : List ℕ, xs ≠ [] → (∀ x ∈ xs, x = L) → xs.foldr max 0 = L := by
  intro xs
  induction xs with
  | nil => intro h; exact absurd rfl h
  | cons x xs ih =>
    intro _ hall
    cases xs with
    | nil =>
      have hx : x = L := hall x (List.mem_cons_self x [])
      simp [hx]
    | cons y ys =>
      have hx : x = L := hall x (List.mem_cons_self x _)
      have hrest : (y :: ys).foldr max 0 = L :=
        ih (List.cons_ne_nil y ys) (fun z hz => hall z (List.mem_cons_of_mem x hz))
      show max x ((y :: ys).foldr max 0) = L
      rw [hx, hrest]
      exact Nat.max_self L

theorem mapM_eq_some_map {α β : Type} (f : α → Option β) (g : α → β) :
    ∀ l : List α, (∀ a ∈ l, f a = some (g a)) → l.mapM f = some (l.map g) := by
  intro l
  induction l with
  | nil => intro _; rfl
  | cons a l ih =>
    intro h
    have ha : f a = some (g a) := h a (List.mem_cons_self a l)
    have hl : l.mapM f = some (l.map g) :=
      ih (fun b hb => h b (List.mem_cons_of_mem a hb))
    rw [List.mapM_cons, ha, hl]
    rfl

theorem mapM_eq_none_of_mem {α β : Type} (f : α → Option β) :
    ∀ l : List α, ∀ a ∈ l, f a = none → l.mapM f = none := by
  intro l
  induction l with
  | nil => intro a ha; exact absurd ha (List.not_mem_nil a)
  | cons b l ih =>
    intro a ha hfa
    rw [List.mapM_cons]
    rcases List.mem_cons.mp ha with heq | hmem
    · rw [← heq, hfa]
      rfl
    · cases hfb : f b with
      | none => rfl
      | some v =>
        rw [ih a hmem hfa]
        rfl

theorem padTo_getD_of_lt {w i : ℕ} (cs : List Cell) (h : i < cs.length) :
    (padTo w cs).getD i .missing = cs.getD i .missing := by
  unfold padTo
  exact List.getD_append _ _ _ _ h

theorem loadTable_cons (header : String) (dataLines : List String) :
    loadTable (header :: dataLines)
      = if dataLines.isEmpty then .error "no data rows" else
        if ((dataLines.map (fun l => (splitFields l).length)).foldr max 0)
            ≠ (splitHeader header).length then .error "column count mismatch" else
        match colIdx (splitHeader header) "MonthlyCostUSD" with
        | none => .error "missing MonthlyCostUSD column"
        | some i =>
          match (dataLines.map (fun l =>
              padTo ((dataLines.map (fun l => (splitFields l).length)).foldr max 0)
                (rawRow l))).mapM (coerceRowAt i) with
          | some rows => .ok ⟨splitHeader header, rows⟩
          | none => .error "non-numeric MonthlyCostUSD value" := rfl

theorem addCompletenessScore_empty : addCompletenessScore emptyTable = emptyTable := rfl

theorem applyFilters_empty (s r d : List String) :
    applyFilters emptyTable s r d = emptyTable := by
  simp [applyFilters, emptyTable]

/-! ### Claims -/

/-- C1 counterexample: the cost-by-tag-status aggregation does not
conserve total cost on a table with a missing `Tagged` value — the
groupby drops the missing-keyed record, so its cost of 5 disappears from
the aggregated sums while remaining in the column total. -/
theorem costByTagStatus_drops_missing_tagged :
    ((costByTagStatus ⟨["Tagged", "MonthlyCostUSD"], [[.missing, .num 5]]⟩).map
        Prod.snd).sum
      ≠ totalCost ⟨["Tagged", "MonthlyCostUSD"], [[.missing, .num 5]]⟩ := by
  simp [costByTagStatus, totalCost, taggedKey, cellAt, colIdx, rowCost, cellToRat]

/-- C1 (amended): for every table, the sum of the values of the
cost-by-tag-status aggregation equals the sum of `MonthlyCostUSD` over
the records whose `Tagged` value is non-missing; records with a missing
`Tagged` value are dropped by the groupby and excluded from the
aggregated total. -/
theorem costByTagStatus_conserves_nonmissing (t : Table) :
    ((costByTagStatus t).map Prod.snd).sum
      = ((t.rows.filter (fun r => !(cellAt t.cols r "Tagged").isMissing)).map
          (rowCost t.cols)).sum := by
  unfold costByTagStatus
  rw [List.map_map]
  have h := sum_groups (taggedKey t.cols) (rowCost t.cols)
    ((t.rows.filterMap (taggedKey t.cols)).dedup)
    (List.nodup_dedup _)
    t.rows
    (fun a ha k hk => List.mem_dedup.mpr (List.mem_filterMap.mpr ⟨a, ha, hk⟩))
  have hpred : ∀ r ∈ t.rows,
      (decide (taggedKey t.cols r ≠ none))
        = (!(cellAt t.cols r "Tagged").isMissing) := by
    intro r _
    unfold taggedKey
    cases cellAt t.cols r "Tagged" <;> simp [Cell.isMissing]
  rw [← List.filter_congr hpred]
  exact h

/-- C2 counterexample: `incompleteResources` is not idempotent — on a
one-record table whose only tag field is missing, the first application
yields that record with the missing cell rendered as an empty string,
and a second application with the same tag fields drops it (the empty
string is no longer missing), so the two applications yield different
record sets. -/
theorem incompleteResources_refilter_loses_records :
    [Cell.str ""] ∈ (incompleteResources ⟨["Department"], [[.missing]]⟩).rows
    ∧ [Cell.str ""] ∉
        (incompleteResources (incompleteResources ⟨["Department"], [[.missing]]⟩)).rows := by
  decide

/-- C2 (amended): the record-selection step of `incompleteResources`
(keeping exactly the records with at least one missing tag field, before
missing values are rendered as empty strings for display) is idempotent;
the full operation is not, because its empty-string rendering erases the
missingness the filter tests for. -/
theorem incompleteSelect_idempotent (t : Table) :
    incompleteSelect (incompleteSelect t) = incompleteSelect t := by
  unfold incompleteSelect
  simp [List.filter_filter]

/-- C3 counterexample: computing the completeness score is not a pure
query on the loaded table — it stores a new `CompletenessScore` column
into it, so the table afterwards differs from the table before. -/
theorem addCompletenessScore_changes_columns :
    addCompletenessScore ⟨["ResourceID", "Department"], [[.str "r1", .missing]]⟩
      ≠ ⟨["ResourceID", "Department"], [[.str "r1", .missing]]⟩ := by
  decide

/-- C3 (amended): the statistics and incomplete-resource computations
are pure queries, but the completeness-score computation appends a
`CompletenessScore` column to the loaded table; it preserves the record
count and every cell of every pre-existing column (missing cells
included). -/
theorem addCompletenessScore_preserves_existing (t : Table)
    (hcs : "CompletenessScore" ∉ t.cols)
    (hw : ∀ r ∈ t.rows, r.length = t.cols.length) :
    (addCompletenessScore t).rows.length = t.rows.length
    ∧ ∀ k : ℕ, ∀ c ∈ t.cols,
        cellAt (addCompletenessScore t).cols ((addCompletenessScore t).rows.getD k []) c
          = cellAt t.cols (t.rows.getD k []) c := by
  unfold addCompletenessScore
  by_cases hg : (!t.rows.isEmpty && !(tagFields t.cols).isEmpty) = true
  · rw [if_pos hg]
    have hcs' : decide ("CompletenessScore" ∈ t.cols) = false := by
      simpa using hcs
    have hnone : colIdx t.cols "CompletenessScore" = none :=
      (colIdx_eq_none_iff _ _).mpr hcs
    constructor
    · simp
    · intro k c hc
      obtain ⟨i, hi⟩ := colIdx_isSome_of_mem hc
      have hlt : i < t.cols.length := colIdx_lt_length hi
      have hcols : (if decide ("CompletenessScore" ∈ t.cols) = true then t.cols
          else t.cols ++ ["CompletenessScore"]) = t.cols ++ ["CompletenessScore"] := by
        rw [hcs']
        simp
      rw [hcols]
      have hidx : colIdx (t.cols ++ ["CompletenessScore"]) c = some i := by
        rw [colIdx_append_left _ hc, hi]
      by_cases hk : k < t.rows.length
      · have hget : (t.rows.map (fun r =>
            setCellNamed t.cols r "CompletenessScore"
              (.num (completenessScore t.cols r)))).getD k []
            = setCellNamed t.cols (t.rows.getD k []) "CompletenessScore"
                (.num (completenessScore t.cols (t.rows.getD k []))) := by
          rw [List.getD_eq_getElem?_getD, List.getElem?_map,
            List.getElem?_eq_getElem (by simpa using hk)]
          simp [List.getD_eq_getElem?_getD, List.getElem?_eq_getElem hk]
        rw [hget]
        unfold setCellNamed
        rw [hnone]
        have hr : t.rows.getD k [] ∈ t.rows := by
          rw [List.getD_eq_getElem?_getD, List.getElem?_eq_getElem hk]
          exact List.getElem_mem hk
        have hrl : (t.rows.getD k []).length = t.cols.length := hw _ hr
        exact cellAt_append_of_idx ["CompletenessScore"] _ _ hc hi (le_of_eq hrl.symm)
      · have hnil : (t.rows.map (fun r =>
            setCellNamed t.cols r "CompletenessScore"
              (.num (completenessScore t.cols r)))).getD k [] = [] := by
          rw [List.getD_eq_getElem?_getD, List.getElem?_eq_none (by simpa using hk)]
          rfl
        have hnil' : t.rows.getD k [] = [] := by
          rw [List.getD_eq_getElem?_getD, List.getElem?_eq_none (by omega)]
          rfl
        rw [hnil, hnil', cellAt_nil, cellAt_nil]
  · rw [if_neg hg]
    exact ⟨rfl, fun k c _ => rfl⟩

/-- C3 witness: the amended statement at a concrete table — one record
with a `ResourceID` and a missing `Department`; the completeness
computation keeps the record count and both original cells. -/
theorem addCompletenessScore_preserves_existing_witness :
    (addCompletenessScore ⟨["ResourceID", "Department"],
        [[.str "r1", .missing]]⟩).rows.length = 1
    ∧ cellAt (addCompletenessScore ⟨["ResourceID", "Department"],
          [[.str "r1", .missing]]⟩).cols
        ((addCompletenessScore ⟨["ResourceID", "Department"],
          [[.str "r1", .missing]]⟩).rows.getD 0 []) "ResourceID"
        = cellAt ["ResourceID", "Department"] [.str "r1", .missing] "ResourceID" := by
  have h := addCompletenessScore_preserves_existing
    ⟨["ResourceID", "Department"], [[.str "r1", .missing]]⟩
    (by decide) (by decide)
  exact ⟨h.1, h.2 0 "ResourceID" (by decide)⟩

/-- C8: the untagged-resource percentage equals the number of records
with `Tagged == "No"` divided by the record count, times 100, and is
zero whenever the table is empty or the `Tagged` column is absent (the
source then reports nothing). -/
theorem untaggedPercentage_formula (t : Table) :
    untaggedPercentage t
      = if t.rows = [] ∨ "Tagged" ∉ t.cols then 0
        else (countNo t : ℚ) / (t.rows.length : ℚ) * 100 := by
  unfold untaggedPercentage
  by_cases h1 : t.rows = []
  · simp [h1, List.isEmpty_iff]
  · by_cases h2 : "Tagged" ∈ t.cols
    · by_cases h3 : t.rows.any (fun r => decide (cellAt t.cols r "Tagged" = .str "No"))
      · simp [List.isEmpty_iff, h1, h2, h3]
      · have hcnt : countNo t = 0 := by
          unfold countNo
          rw [List.length_eq_zero, List.filter_eq_nil_iff]
          intro r hr hc
          apply h3
          rw [List.any_eq_true]
          exact ⟨r, hr, hc⟩
        simp [List.isEmpty_iff, h1, h2, h3, hcnt]
    · simp [List.isEmpty_iff, h1, h2]

/-- C9: the completeness score of a record equals the count of present
tag fields with a non-missing value, lies between 0 and the number of
present tag fields, is 6 when all six tag fields are present and
non-missing, and 0 when all six are present but missing. -/
theorem completenessScore_contract (cols : List String) (row : List Cell) :
    completenessScore cols row
        = ((tagFields cols).filter (fun c => !(cellAt cols row c).isMissing)).length
    ∧ completenessScore cols row ≤ (tagFields cols).length
    ∧ ((∀ c ∈ tagFieldsAll, c ∈ cols) →
        (∀ c ∈ tagFieldsAll, !(cellAt cols row c).isMissing) →
        completenessScore cols row = 6)
    ∧ ((∀ c ∈ tagFieldsAll, c ∈ cols) →
        (∀ c ∈ tagFieldsAll, (cellAt cols row c).isMissing) →
        completenessScore cols row = 0) := by
  have h1 : completenessScore cols row
      = ((tagFields cols).filter (fun c => !(cellAt cols row c).isMissing)).length :=
    sum_if_eq_length_filter _ _
  have hsub : ∀ c ∈ tagFields cols, c ∈ tagFieldsAll := by
    intro c hc
    exact (List.mem_filter.mp hc).1
  refine ⟨h1, ?_, ?_, ?_⟩
  · rw [h1]
    exact List.length_filter_le _ _
  · intro hall hnm
    have htf : tagFields cols = tagFieldsAll := by
      unfold tagFields
      rw [List.filter_eq_self]
      intro c hc
      simpa using hall c hc
    rw [h1, htf]
    have : tagFieldsAll.filter (fun c => !(cellAt cols row c).isMissing)
        = tagFieldsAll := by
      rw [List.filter_eq_self]
      exact hnm
    rw [this]
    rfl
  · intro hall hm
    rw [h1]
    rw [List.length_eq_zero, List.filter_eq_nil_iff]
    intro c hc
    simp [hm c (hsub c hc)]

/-- C4: export followed by re-ingestion through a conformant delimited
parser — for every table satisfying the Table invariant of the spec (a
non-empty column list, every record as wide as the header), parsing the
exported records yields the same columns, exactly as many records, every
text cell exactly preserved (`renderCell (.str s) = s`, with
QUOTE_MINIMAL quoting covering cells that contain delimiters, quotes or
line breaks), and every missing cell rendered back as the empty string
and nothing else (`renderCell .missing = ""`). -/
theorem export_roundtrip (t : Table)
    (hcne : t.cols ≠ [])
    (hw : ∀ r ∈ t.rows, r.length = t.cols.length) :
    conformantParse (serialize t)
      = ⟨t.cols, t.rows.map (fun r => r.map (fun cell => Cell.str (renderCell cell)))⟩
    ∧ (conformantParse (serialize t)).rows.length = t.rows.length
    ∧ renderCell .missing = ""
    ∧ (∀ s, renderCell (.str s) = s) := by
  have hmain : conformantParse (serialize t)
      = ⟨t.cols, t.rows.map (fun r => r.map (fun cell => Cell.str (renderCell cell)))⟩ := by
    show (⟨parseCSVFields (joinFields (t.cols.map quoteField)),
      (t.rows.map (fun r => joinFields ((r.map renderCell).map quoteField))).map
        (fun l => (parseCSVFields l).map Cell.str)⟩ : Table) = _
    rw [parse_serialize_fields t.cols hcne]
    rw [List.map_map]
    have hrows : ∀ r ∈ t.rows,
        ((fun l => (parseCSVFields l).map Cell.str) ∘
          (fun r => joinFields ((r.map renderCell).map quoteField))) r
          = r.map (fun cell => Cell.str (renderCell cell)) := by
      intro r hrm
      have hrne : r ≠ [] := by
        intro h0
        apply hcne
        apply List.eq_nil_of_length_eq_zero
        rw [← hw r hrm, h0]
        rfl
      show ((parseCSVFields (joinFields ((r.map renderCell).map quoteField))).map
          Cell.str)
        = r.map (fun cell => Cell.str (renderCell cell))
      rw [parse_serialize_fields (r.map renderCell) (by simpa using hrne)]
      rw [List.map_map]
      rfl
    rw [List.map_congr_left hrows]
  refine ⟨hmain, ?_, rfl, fun _ => rfl⟩
  rw [hmain]
  simp

/-- C4 witness: a three-column table whose cells exercise the quoting —
one value containing the delimiter, one containing a quote character,
and one missing cell — round-trips exactly, the missing cell as an empty
string. -/
theorem export_roundtrip_witness :
    conformantParse (serialize ⟨["ResourceID", "Owner", "Tagged"],
        [[.str "r,1", .str "a\"b", .missing]]⟩)
      = ⟨["ResourceID", "Owner", "Tagged"],
        [[.str "r,1", .str "a\"b", .str ""]]⟩ :=
  (export_roundtrip ⟨["ResourceID", "Owner", "Tagged"],
      [[.str "r,1", .str "a\"b", .missing]]⟩
    (by decide) (by decide)).1.trans (by decide)

/-- C5: the filter-layer contract — given that each column with a
non-empty selection is present in the schema (the app only offers filters
on present columns), a record is in the filtered table iff it is in the
original and, for every column with a non-empty allowed set, its value is
a member of that set; all-empty selections leave the table unchanged; and
the filtered record count never exceeds the original. -/
theorem filter_layer_contract (t : Table) (s r d : List String)
    (hs : s ≠ [] → "Service" ∈ t.cols)
    (hr : r ≠ [] → "Region" ∈ t.cols)
    (hd : d ≠ [] → "Department" ∈ t.cols) :
    (∀ row, row ∈ (applyFilters t s r d).rows ↔
      row ∈ t.rows
      ∧ (s ≠ [] → cellIn (cellAt t.cols row "Service") s = true)
      ∧ (r ≠ [] → cellIn (cellAt t.cols row "Region") r = true)
      ∧ (d ≠ [] → cellIn (cellAt t.cols row "Department") d = true))
    ∧ applyFilters t [] [] [] = t
    ∧ (applyFilters t s r d).rows.length ≤ t.rows.length := by
  have hg : ∀ (c : String) (sel : List String), (sel ≠ [] → c ∈ t.cols) →
      ((decide (c ∈ t.cols) && !sel.isEmpty) = true ↔ sel ≠ []) := by
    intro c sel hpres
    constructor
    · intro hand
      have := (Bool.and_eq_true _ _).mp hand
      simpa using this.2
    · intro hne
      have h1 : decide (c ∈ t.cols) = true := by simpa using hpres hne
      have h2 : (!sel.isEmpty) = true := by simpa using hne
      rw [h1, h2]
      rfl
  refine ⟨?_, ?_, ?_⟩
  · intro row
    rw [applyFilters_mem]
    rw [hg "Service" s hs, hg "Region" r hr, hg "Department" d hd]
    tauto
  · show applyFilters t [] [] [] = t
    simp [applyFilters]
  · show (applyFilters t s r d).rows.length ≤ t.rows.length
    simp only [applyFilters]
    exact le_trans (length_ite_filter _ _ _)
      (le_trans (length_ite_filter _ _ _) (length_ite_filter _ _ _))

/-- C5 witness: filtering a one-column table on Service = EC2 keeps the
EC2 record. -/
theorem filter_layer_contract_witness :
    [Cell.str "EC2"] ∈
      (applyFilters ⟨["Service"], [[.str "EC2"], [.str "S3"], [.missing]]⟩
        ["EC2"] [] []).rows := by
  have h := filter_layer_contract
    ⟨["Service"], [[.str "EC2"], [.str "S3"], [.missing]]⟩ ["EC2"] [] []
    (fun _ => by decide) (fun hc => absurd rfl hc) (fun hc => absurd rfl hc)
  exact (h.1 [Cell.str "EC2"]).mpr
    ⟨by decide, fun _ => by decide, fun hc => absurd rfl hc, fun hc => absurd rfl hc⟩

/-- C10: a non-empty selection on a present filter column excludes every
record whose value in that column is missing (a missing cell never
satisfies the membership test), and the selectable options of a filter
widget are exactly drawn from the non-missing values of the column. -/
theorem filter_missing_excluded (t : Table) (s r d : List String) :
    (∀ c : String, ∀ v ∈ filterOptions t c,
      v ≠ Cell.missing ∧ ∃ row ∈ t.rows, cellAt t.cols row c = v)
    ∧ (∀ row ∈ (applyFilters t s r d).rows,
        (s ≠ [] → "Service" ∈ t.cols → cellAt t.cols row "Service" ≠ .missing)
        ∧ (r ≠ [] → "Region" ∈ t.cols → cellAt t.cols row "Region" ≠ .missing)
        ∧ (d ≠ [] → "Department" ∈ t.cols → cellAt t.cols row "Department" ≠ .missing)) := by
  constructor
  · intro c v hv
    have hvm := List.mem_filterMap.mp (List.mem_dedup.mp hv)
    obtain ⟨row, hrow, heq⟩ := hvm
    cases hcell : cellAt t.cols row c with
    | missing => rw [hcell] at heq; simp at heq
    | str sv =>
      rw [hcell] at heq
      simp only [Option.some.injEq] at heq
      exact ⟨heq ▸ (by simp), row, hrow, heq ▸ hcell⟩
    | num q =>
      rw [hcell] at heq
      simp only [Option.some.injEq] at heq
      exact ⟨heq ▸ (by simp), row, hrow, heq ▸ hcell⟩
  · intro row hrow
    have hmem := (applyFilters_mem t s r d row).mp hrow
    have hcase : ∀ (c : String) (sel : List String),
        ((decide (c ∈ t.cols) && !sel.isEmpty) = true →
          cellIn (cellAt t.cols row c) sel = true) →
        sel ≠ [] → c ∈ t.cols → cellAt t.cols row c ≠ .missing := by
      intro c sel himp hne hcol hmiss
      have hand : (decide (c ∈ t.cols) && !sel.isEmpty) = true := by
        have h1 : decide (c ∈ t.cols) = true := by simpa using hcol
        have h2 : (!sel.isEmpty) = true := by simpa using hne
        rw [h1, h2]
        rfl
      have := himp hand
      rw [hmiss] at this
      simp [cellIn] at this
    exact ⟨hcase "Service" s hmem.1.1.2, hcase "Region" r hmem.1.2,
      hcase "Department" d hmem.2⟩

/-- C10 witness: with a non-empty Service selection on a table holding a
missing-Service record, that record is excluded, and the options list of
the Service widget is its non-missing values. -/
theorem filter_missing_excluded_witness :
    cellAt ["Service"] [Cell.missing] "Service" = .missing
    ∧ ([Cell.missing] ∈
        (applyFilters ⟨["Service"], [[.str "EC2"], [.missing]]⟩ ["EC2"] [] []).rows
        → False) := by
  constructor
  · decide
  · intro hmem
    have h := (filter_missing_excluded
      ⟨["Service"], [[.str "EC2"], [.missing]]⟩ ["EC2"] [] []).2
      [Cell.missing] hmem
    exact h.1 (by decide) (by decide) (by decide)

/-- C9 witness: the contract applied to a header holding exactly the six
tag fields, once with all cells present and once with all missing. -/
theorem completenessScore_contract_instances :
    completenessScore tagFieldsAll
        [.str "fin", .str "apollo", .str "prod", .str "alice", .str "cc1", .str "bob"] = 6
    ∧ completenessScore tagFieldsAll
        [.missing, .missing, .missing, .missing, .missing, .missing] = 0 :=
  ⟨(completenessScore_contract tagFieldsAll
      [.str "fin", .str "apollo", .str "prod", .str "alice", .str "cc1", .str "bob"]).2.2.1
      (by decide) (by decide),
   (completenessScore_contract tagFieldsAll
      [.missing, .missing, .missing, .missing, .missing, .missing]).2.2.2
      (by decide) (by decide)⟩

/-- C6: the load-failure contract — a non-numeric `MonthlyCostUSD` value
(after blank-as-missing normalisation) fails the entire load, and on any
load failure the app continues with the empty table, surfaces the error
message, and skips every downstream section instead of computing it. -/
theorem load_failure_contract :
    (∀ lines sSel rSel dSel e, loadTable lines = .error e →
      (renderApp lines sSel rSel dSel).loadMsg = some e
      ∧ (renderApp lines sSel rSel dSel).table = emptyTable
      ∧ (renderApp lines sSel rSel dSel).exploration = none
      ∧ (renderApp lines sSel rSel dSel).untaggedBox = none
      ∧ (renderApp lines sSel rSel dSel).costByTag = none
      ∧ (renderApp lines sSel rSel dSel).untaggedCostBox = none
      ∧ (renderApp lines sSel rSel dSel).compliance = none
      ∧ (renderApp lines sSel rSel dSel).charts = none
      ∧ (renderApp lines sSel rSel dSel).editor = none)
    ∧ (∀ (header : String) (dataLines : List String) (i : ℕ),
        colIdx (splitHeader header) "MonthlyCostUSD" = some i →
        (∃ l ∈ dataLines, coerceCell ((rawRow l).getD i .missing) = none) →
        ∃ e, loadTable (header :: dataLines) = .error e) := by
  constructor
  · intro lines sSel rSel dSel e h
    have ht : appTable lines = emptyTable := by unfold appTable; rw [h]
    have hm : loadError lines = some e := by unfold loadError; rw [h]
    simp only [renderApp, ht, hm, addCompletenessScore_empty, applyFilters_empty]
    simp [emptyTable]
  · intro header dataLines i hcost hex
    obtain ⟨l, hl, hbad⟩ := hex
    have hne : dataLines ≠ [] := by rintro rfl; exact List.not_mem_nil l hl
    have hie : dataLines.isEmpty = false := by simpa [List.isEmpty_iff] using hne
    rw [loadTable_cons, hie]
    simp only [Bool.false_eq_true, if_false]
    by_cases hw : ((dataLines.map (fun l => (splitFields l).length)).foldr max 0)
        ≠ (splitHeader header).length
    · rw [if_pos hw]
      exact ⟨_, rfl⟩
    · rw [if_neg hw]
      have helt : coerceRowAt i
          (padTo ((dataLines.map (fun l => (splitFields l).length)).foldr max 0)
            (rawRow l)) = none := by
        unfold coerceRowAt
        by_cases hi : i < (rawRow l).length
        · rw [padTo_getD_of_lt _ hi, hbad]
        · have hdef : (rawRow l).getD i .missing = .missing :=
            List.getD_eq_default _ _ (le_of_not_lt hi)
          rw [hdef] at hbad
          simp [coerceCell] at hbad
      have hmapnone : (dataLines.map (fun l =>
          padTo ((dataLines.map (fun l => (splitFields l).length)).foldr max 0)
            (rawRow l))).mapM (coerceRowAt i) = none :=
        mapM_eq_none_of_mem (coerceRowAt i)
          (dataLines.map (fun l =>
            padTo ((dataLines.map (fun l => (splitFields l).length)).foldr max 0)
              (rawRow l)))
          (padTo ((dataLines.map (fun l => (splitFields l).length)).foldr max 0)
            (rawRow l))
          (List.mem_map_of_mem _ hl) helt
      simp only [hcost, hmapnone]
      exact ⟨_, rfl⟩

/-- C6 witness: the contract at a concrete failing input — a file whose
cost column holds the non-numeric value `abc`: the load fails and the
sections are all skipped. -/
theorem load_failure_contract_witness :
    (∃ e, loadTable ["ResourceID,MonthlyCostUSD", "r1,abc"] = .error e)
    ∧ (renderApp ["ResourceID,MonthlyCostUSD", "r1,abc"] [] [] []).table = emptyTable
    ∧ (renderApp ["ResourceID,MonthlyCostUSD", "r1,abc"] [] [] []).costByTag = none
    ∧ (renderApp ["ResourceID,MonthlyCostUSD", "r1,abc"] [] [] []).editor = none := by
  have hb := load_failure_contract.2 "ResourceID,MonthlyCostUSD" ["r1,abc"] 1
    (by decide) ⟨"r1,abc", by decide, by decide⟩
  have ha := load_failure_contract.1 ["ResourceID,MonthlyCostUSD", "r1,abc"]
    [] [] [] "non-numeric MonthlyCostUSD value" (by rfl)
  exact ⟨hb, ha.2.1, ha.2.2.2.2.1, ha.2.2.2.2.2.2.2.2⟩

/-- C7 counterexample: the example input given by the spec — header `A,B,C`
with data row `1,,3` — does not ingest into a three-column table; the
cost-coercion step raises on the absent `MonthlyCostUSD` column, so the
whole load fails and the app continues with an empty table. -/
theorem ingest_spec_example_fails :
    loadTable ["A,B,C", "1,,3"] = .error "missing MonthlyCostUSD column"
    ∧ (appTable ["A,B,C", "1,,3"]).cols ≠ ["A", "B", "C"] :=
  ⟨rfl, by decide⟩

/-- C7 (amended): for well-formed single-column input whose repaired
header contains `MonthlyCostUSD` (at index `i`) and whose rows split to
the header width with numeric-or-blank cost fields, ingestion splits
the header on commas and strips whitespace and byte-order marks
(`splitHeader`), splits each remaining line on commas treating blank
fields as missing (`rawRow`), and coerces the cost cell; in particular
header `A,B,MonthlyCostUSD` with data row `1,,3` yields columns
[A, B, MonthlyCostUSD] and row values [1, missing, 3]. -/
theorem ingest_wellformed (header : String) (dataLines : List String) (i : ℕ)
    (hne : dataLines ≠ [])
    (hwidth : ∀ l ∈ dataLines, (splitFields l).length = (splitHeader header).length)
    (hcost : colIdx (splitHeader header) "MonthlyCostUSD" = some i)
    (hnum : ∀ l ∈ dataLines,
      (coerceCell ((rawRow l).getD i .missing)).isSome = true) :
    loadTable (header :: dataLines)
      = .ok ⟨splitHeader header,
          dataLines.map (fun l => (rawRow l).set i
            ((coerceCell ((rawRow l).getD i .missing)).getD .missing))⟩
    ∧ appTable ["A,B,MonthlyCostUSD", "1,,3"]
      = ⟨["A", "B", "MonthlyCostUSD"], [[.str "1", .missing, .num 3]]⟩ := by
  constructor
  · have hie : dataLines.isEmpty = false := by simpa [List.isEmpty_iff] using hne
    have hwcount : ((dataLines.map (fun l => (splitFields l).length)).foldr max 0)
        = (splitHeader header).length := by
      apply foldr_max_const
      · simpa using hne
      · intro x hx
        obtain ⟨l, hl, rfl⟩ := List.mem_map.mp hx
        exact hwidth l hl
    rw [loadTable_cons, hie]
    simp only [Bool.false_eq_true, if_false]
    rw [if_neg (not_ne_iff.mpr hwcount)]
    have hpad : ∀ l ∈ dataLines,
        (fun l => padTo ((dataLines.map (fun l => (splitFields l).length)).foldr max 0)
          (rawRow l)) l = rawRow l := by
      intro l hl
      show padTo ((dataLines.map (fun l => (splitFields l).length)).foldr max 0)
        (rawRow l) = rawRow l
      unfold padTo
      have hlen : (rawRow l).length = (splitFields l).length := by
        unfold rawRow
        simp
      rw [hwcount, hlen, hwidth l hl, Nat.sub_self, List.replicate_zero,
        List.append_nil]
    have hsome : (dataLines.map (fun l =>
        padTo ((dataLines.map (fun l => (splitFields l).length)).foldr max 0)
          (rawRow l))).mapM (coerceRowAt i)
        = some (dataLines.map (fun l => (rawRow l).set i
            ((coerceCell ((rawRow l).getD i .missing)).getD .missing))) := by
      rw [List.map_congr_left hpad]
      have hstep : (dataLines.map rawRow).mapM (coerceRowAt i)
          = some ((dataLines.map rawRow).map (fun r =>
              r.set i ((coerceCell (r.getD i .missing)).getD .missing))) := by
        apply mapM_eq_some_map
        intro r hr
        obtain ⟨l, hl, rfl⟩ := List.mem_map.mp hr
        obtain ⟨c, hc⟩ := Option.isSome_iff_exists.mp (hnum l hl)
        unfold coerceRowAt
        rw [hc]
        rfl
      rw [hstep, List.map_map]
      rfl
    simp only [hcost, hsome]
  · decide

/-- C7 witness: the amended statement at the concrete input — header
`A,B,MonthlyCostUSD`, row `1,,3`. -/
theorem ingest_wellformed_witness :
    loadTable ["A,B,MonthlyCostUSD", "1,,3"]
      = .ok ⟨["A", "B", "MonthlyCostUSD"], [[.str "1", .missing, .num 3]]⟩ := by
  have h := (ingest_wellformed "A,B,MonthlyCostUSD" ["1,,3"] 2
    (by decide) (by decide) (by decide) (by decide)).1
  rw [h]
  congr 1

end CloudEcon
